import Mathlib

/-!
Verification of the FloorIQ IQ-normalization engine (`compute_iq_fields`,
`to_iq`, `band_for_score` in `app.py`).

The engine is embedded shallowly: utilization measurements and rates are
rational numbers, the population standard deviation is a real number
(`Real.sqrt` of the rational population variance), Python's `round`
(round-half-to-even) is `pyRound`, and the two runtime errors the engine can
raise (`ZeroDivisionError` from a zero period length, `StatisticsError` from
`mean` of an empty list) are surfaced through `Except`.
-/

namespace FloorIQ

/-- One equipment record.  The first four fields are caller-supplied
(`id`, `category`, `total_minutes`, `weekly_change`); the remaining five
are derived by the engine, which overwrites whatever the caller passed,
mirroring the in-place dictionary updates of `compute_iq_fields`. -/
structure Item where
  id : String
  category : String
  total_minutes : ℤ
  weekly_change : ℤ
  mph : ℚ
  mph_prev : ℚ
  iq : ℤ
  iq_prev : ℤ
  delta_iq : ℤ

/-- `HOURS_OPEN_PER_WEEK = 168`, the module-level period-length constant. -/
def HOURS_OPEN_PER_WEEK : ℚ := 168

/-- The per-record rate assignment of the first loop of `compute_iq_fields`:
`mph = total_minutes / h` and `mph_prev = max(0, total_minutes - weekly_change) / h`. -/
def rateOne (h : ℚ) (it : Item) : Item :=
  { it with
      mph := (it.total_minutes : ℚ) / h,
      mph_prev := ((max 0 (it.total_minutes - it.weekly_change) : ℤ) : ℚ) / h }

/-- The first loop of `compute_iq_fields`, with Python's division-by-zero
semantics made explicit: dividing by a zero period length raises at the
first record processed. -/
def computeRates (h : ℚ) : List Item → Except String (List Item)
  | [] => Except.ok []
  | it :: rest =>
    if h = 0 then Except.error "ZeroDivisionError: division by zero"
    else
      match computeRates h rest with
      | Except.error e => Except.error e
      | Except.ok rs => Except.ok (rateOne h it :: rs)

/-- `gym_mph_list`: the current rates of all records. -/
def gymList (l : List Item) : List ℚ := l.map (fun it => it.mph)

/-- The rate list accumulated for category `c` by the `by_cat` grouping loop:
the `mph` of the records of category `c`, in input order. -/
def catVals (l : List Item) (c : String) : List ℚ :=
  (l.filter (fun it => it.category == c)).map (fun it => it.mph)

/-- `statistics.mean` on a non-empty list (the empty case is handled by the
caller, since Python raises `StatisticsError` there). -/
def meanQ (l : List ℚ) : ℚ := l.sum / (l.length : ℚ)

/-- Population variance, the square of `statistics.pstdev`. -/
def pvariance (l : List ℚ) : ℚ :=
  (l.map (fun x => (x - meanQ l) ^ 2)).sum / (l.length : ℚ)

/-- `pstdev(vals) if len(vals) > 1 else 1.0`. -/
noncomputable def pstdevOr1 (l : List ℚ) : ℝ :=
  if 1 < l.length then Real.sqrt ((pvariance l : ℚ) : ℝ) else 1

/-- The deviation actually used for a baseline: `pstdevOr1`, with a zero
result replaced by the sentinel `1.0` (`if sigma == 0: sigma = 1.0`). -/
noncomputable def sigmaOf (l : List ℚ) : ℝ :=
  if pstdevOr1 l = 0 then 1 else pstdevOr1 l

/-- `(gym_mu, gym_sigma)`: the facility-wide baseline. -/
noncomputable def gymBaseline (rated : List Item) : ℚ × ℝ :=
  (meanQ (gymList rated), sigmaOf (gymList rated))

/-- The baseline looked up for a record of category `c`: the category's own
mean/deviation when the category has at least 5 samples, otherwise the
facility-wide baseline (`cat_baselines` with its fallback branch). -/
noncomputable def effBaseline (rated : List Item) (c : String) : ℚ × ℝ :=
  if 5 ≤ (catVals rated c).length then
    (meanQ (catVals rated c), sigmaOf (catVals rated c))
  else gymBaseline rated

/-- Python's `round`: round half to even. -/
noncomputable def pyRound (x : ℝ) : ℤ :=
  if x - (⌊x⌋ : ℝ) < 1 / 2 then ⌊x⌋
  else if 1 / 2 < x - (⌊x⌋ : ℝ) then ⌊x⌋ + 1
  else if Even ⌊x⌋ then ⌊x⌋ else ⌊x⌋ + 1

/-- `to_iq(mph, mu, sigma)`: `round(100 + 15 * z)` clamped to `[0, 200]`,
with `z = (mph - mu) / sigma`. -/
noncomputable def to_iq (mph mu : ℚ) (sigma : ℝ) : ℤ :=
  max 0 (min 200 (pyRound (100 + 15 * (((mph : ℝ) - (mu : ℝ)) / sigma))))

/-- The per-record body of the IQ-assignment loop: fill in `iq`, `iq_prev`
and `delta_iq` against the record's effective baseline. -/
noncomputable def scoreOne (rated : List Item) (it : Item) : Item :=
  { it with
      iq := to_iq it.mph (effBaseline rated it.category).1
        (effBaseline rated it.category).2,
      iq_prev := to_iq it.mph_prev (effBaseline rated it.category).1
        (effBaseline rated it.category).2,
      delta_iq :=
        to_iq it.mph (effBaseline rated it.category).1
          (effBaseline rated it.category).2 -
        to_iq it.mph_prev (effBaseline rated it.category).1
          (effBaseline rated it.category).2 }

/-- The IQ-assignment loop over all rated records. -/
noncomputable def scoreStep (rated : List Item) : List Item :=
  rated.map (scoreOne rated)

/-- `gym_iq = round(mean([it['iq'] ...])) if items else 100`. -/
noncomputable def gymIq (scored : List Item) : ℤ :=
  match scored with
  | [] => 100
  | _ :: _ => pyRound ((meanQ (scored.map (fun s => (s.iq : ℚ))) : ℚ) : ℝ)

/-- `band_for_score`. -/
def band_for_score (iq : ℤ) : String :=
  if iq < 90 then "Below Average"
  else if iq ≤ 110 then "Average"
  else "Above Average"

/-- The whole engine, parameterized by the period-length constant `h`:
compute rates, then — as in `compute_iq_fields`, where `mean(gym_mph_list)`
raises `StatisticsError` on an empty collection before the `if items else
100` default can apply — fail on an empty collection, otherwise score every
record and aggregate the facility score and band. -/
noncomputable def scoreAll (h : ℚ) (items : List Item) :
    Except String (List Item × ℤ × String) :=
  match computeRates h items with
  | Except.error e => Except.error e
  | Except.ok [] =>
    Except.error "StatisticsError: mean requires at least one data point"
  | Except.ok rated =>
    Except.ok (scoreStep rated, gymIq (scoreStep rated),
      band_for_score (gymIq (scoreStep rated)))

/-- `compute_iq_fields` as shipped: the engine at the module constant
`HOURS_OPEN_PER_WEEK`. -/
noncomputable def compute_iq_fields (items : List Item) :
    Except String (List Item × ℤ × String) :=
  scoreAll HOURS_OPEN_PER_WEEK items

/-! ### Basic facts about the stages -/

lemma scoreOne_category (rated : List Item) (it : Item) :
    (scoreOne rated it).category = it.category := rfl

lemma scoreOne_mph (rated : List Item) (it : Item) :
    (scoreOne rated it).mph = it.mph := rfl

lemma scoreOne_mph_prev (rated : List Item) (it : Item) :
    (scoreOne rated it).mph_prev = it.mph_prev := rfl

lemma scoreOne_total_minutes (rated : List Item) (it : Item) :
    (scoreOne rated it).total_minutes = it.total_minutes := rfl

lemma scoreOne_weekly_change (rated : List Item) (it : Item) :
    (scoreOne rated it).weekly_change = it.weekly_change := rfl

lemma scoreOne_iq (rated : List Item) (it : Item) :
    (scoreOne rated it).iq =
      to_iq it.mph (effBaseline rated it.category).1
        (effBaseline rated it.category).2 := rfl

lemma scoreOne_iq_prev (rated : List Item) (it : Item) :
    (scoreOne rated it).iq_prev =
      to_iq it.mph_prev (effBaseline rated it.category).1
        (effBaseline rated it.category).2 := rfl

lemma scoreOne_delta_iq (rated : List Item) (it : Item) :
    (scoreOne rated it).delta_iq =
      (scoreOne rated it).iq - (scoreOne rated it).iq_prev := rfl

lemma mem_scoreStep {rated : List Item} {r : Item} (hr : r ∈ scoreStep rated) :
    ∃ it, it ∈ rated ∧ scoreOne rated it = r :=
  List.mem_map.mp hr

lemma gymList_map (g : Item → Item) (hmph : ∀ it, (g it).mph = it.mph)
    (l : List Item) : gymList (l.map g) = gymList l := by
  unfold gymList
  rw [List.map_map]
  exact List.map_congr_left (fun it _ => hmph it)

lemma catVals_map (g : Item → Item)
    (hcat : ∀ it, (g it).category = it.category)
    (hmph : ∀ it, (g it).mph = it.mph) (l : List Item) (c : String) :
    catVals (l.map g) c = catVals l c := by
  induction l with
  | nil => rfl
  | cons it rest ih =>
    have ihm : List.map (fun x => x.mph)
          (List.filter (fun x => x.category == c) (List.map g rest)) =
        List.map (fun x => x.mph)
          (List.filter (fun x => x.category == c) rest) := ih
    simp only [List.map_cons, catVals, List.filter_cons, hcat]
    cases hb : (it.category == c) with
    | false =>
      simp only [Bool.false_eq_true, if_false]
      exact ihm
    | true =>
      simp only [if_true, List.map_cons, hmph]
      rw [ihm]

lemma gymList_scoreStep (rated : List Item) :
    gymList (scoreStep rated) = gymList rated :=
  gymList_map (scoreOne rated) (fun _ => rfl) rated

lemma catVals_scoreStep (rated : List Item) (c : String) :
    catVals (scoreStep rated) c = catVals rated c :=
  catVals_map (scoreOne rated) (fun _ => rfl) (fun _ => rfl) rated c

lemma effBaseline_scoreStep (rated : List Item) (c : String) :
    effBaseline (scoreStep rated) c = effBaseline rated c := by
  unfold effBaseline gymBaseline
  rw [catVals_scoreStep, gymList_scoreStep]

lemma computeRates_of_ne {h : ℚ} (hne : h ≠ 0) (items : List Item) :
    computeRates h items = Except.ok (items.map (rateOne h)) := by
  induction items with
  | nil => rfl
  | cons it rest ih => simp [computeRates, hne, ih]

lemma scoreAll_ok_elim {h : ℚ} {items : List Item}
    {out : List Item × ℤ × String} (heq : scoreAll h items = Except.ok out) :
    ∃ rated, computeRates h items = Except.ok rated ∧ rated ≠ [] ∧
      out = (scoreStep rated, gymIq (scoreStep rated),
        band_for_score (gymIq (scoreStep rated))) := by
  unfold scoreAll at heq
  cases hc : computeRates h items with
  | error e => rw [hc] at heq; exact absurd heq (by simp)
  | ok rated =>
    rw [hc] at heq
    cases rated with
    | nil => simp at heq
    | cons a l =>
      refine ⟨a :: l, rfl, by simp, ?_⟩
      simpa using heq.symm

/-! ### Rounding -/

lemma le_pyRound (x : ℝ) : ⌊x⌋ ≤ pyRound x := by
  unfold pyRound
  split_ifs <;> omega

lemma pyRound_le (x : ℝ) : pyRound x ≤ ⌊x⌋ + 1 := by
  unfold pyRound
  split_ifs <;> omega

lemma pyRound_intCast (n : ℤ) : pyRound (n : ℝ) = n := by
  unfold pyRound
  rw [Int.floor_intCast, sub_self]
  norm_num

lemma pyRound_mono {x y : ℝ} (hxy : x ≤ y) : pyRound x ≤ pyRound y := by
  have hf : ⌊x⌋ ≤ ⌊y⌋ := Int.floor_mono hxy
  rcases eq_or_lt_of_le hf with heq | hlt
  · unfold pyRound
    rw [← heq]
    split_ifs <;> first | omega | (exfalso; push_cast at *; linarith)
  · have h1 := pyRound_le x
    have h2 := le_pyRound y
    omega

/-! ### Scoring -/

lemma to_iq_nonneg (m mu : ℚ) (σ : ℝ) : 0 ≤ to_iq m mu σ :=
  le_max_left _ _

lemma to_iq_le_two_hundred (m mu : ℚ) (σ : ℝ) : to_iq m mu σ ≤ 200 :=
  max_le (by norm_num) (min_le_left _ _)

lemma to_iq_self (m : ℚ) (σ : ℝ) : to_iq m m σ = 100 := by
  unfold to_iq
  rw [sub_self, zero_div, mul_zero, add_zero,
    show ((100 : ℝ)) = ((100 : ℤ) : ℝ) by norm_num, pyRound_intCast]
  norm_num

lemma to_iq_mono {σ : ℝ} (hσ : 0 < σ) {mu m1 m2 : ℚ} (h12 : m1 ≤ m2) :
    to_iq m1 mu σ ≤ to_iq m2 mu σ := by
  unfold to_iq
  have hc : ((m1 : ℝ)) ≤ ((m2 : ℝ)) := by exact_mod_cast h12
  have hz : ((m1 : ℝ) - mu) / σ ≤ ((m2 : ℝ) - mu) / σ :=
    (div_le_div_iff_of_pos_right hσ).mpr (by linarith)
  have hr := pyRound_mono
    (show (100 : ℝ) + 15 * (((m1 : ℝ) - mu) / σ) ≤
        100 + 15 * (((m2 : ℝ) - mu) / σ) by linarith)
  exact max_le_max le_rfl (min_le_min le_rfl hr)

/-! ### Deviations and means -/

lemma pstdevOr1_nonneg (l : List ℚ) : 0 ≤ pstdevOr1 l := by
  unfold pstdevOr1
  split_ifs
  · exact Real.sqrt_nonneg _
  · norm_num

lemma sigmaOf_pos (l : List ℚ) : 0 < sigmaOf l := by
  unfold sigmaOf
  split_ifs with hs
  · norm_num
  · exact lt_of_le_of_ne (pstdevOr1_nonneg l) (Ne.symm hs)

lemma pstdevOr1_of_pvariance_zero {l : List ℚ} (hv : pvariance l = 0) :
    pstdevOr1 l = 0 ∨ pstdevOr1 l = 1 := by
  unfold pstdevOr1
  split_ifs
  · left
    rw [hv]
    norm_num
  · right
    rfl

lemma sigmaOf_of_pvariance_zero {l : List ℚ} (hv : pvariance l = 0) :
    sigmaOf l = 1 := by
  unfold sigmaOf
  rcases pstdevOr1_of_pvariance_zero hv with h | h <;> rw [h] <;> norm_num

lemma effBaseline_sigma_pos (rated : List Item) (c : String) :
    0 < (effBaseline rated c).2 := by
  unfold effBaseline gymBaseline
  split_ifs <;> exact sigmaOf_pos _

lemma meanQ_const {l : List ℚ} {x : ℚ} (hall : ∀ v ∈ l, v = x)
    (hne : l ≠ []) : meanQ l = x := by
  have hrep : l = List.replicate l.length x :=
    List.eq_replicate_iff.mpr ⟨rfl, hall⟩
  have hl0 : (l.length : ℚ) ≠ 0 := by
    have : l.length ≠ 0 := fun h => hne (List.length_eq_zero.mp h)
    exact_mod_cast this
  have hsum : l.sum = (l.length : ℚ) * x := by
    rw [hrep]
    simp [List.sum_replicate, nsmul_eq_mul]
  unfold meanQ
  rw [hsum, mul_comm, mul_div_assoc, div_self hl0, mul_one]

lemma mph_mem_catVals {rated : List Item} {it : Item} (hit : it ∈ rated) :
    it.mph ∈ catVals rated it.category := by
  unfold catVals
  exact List.mem_map_of_mem _ (List.mem_filter.mpr ⟨hit, by simp⟩)

lemma mph_mem_gymList {rated : List Item} {it : Item} (hit : it ∈ rated) :
    it.mph ∈ gymList rated :=
  List.mem_map_of_mem _ hit

/-! ### A concrete single-record run, used to instantiate the theorems -/

/-- A concrete caller-supplied record: 336 minutes of use, no weekly change
(the derived fields start at 0 and are overwritten by the engine). -/
def rec0 : Item :=
  { id := "equipment_001", category := "Strength", total_minutes := 336,
    weekly_change := 0, mph := 0, mph_prev := 0, iq := 0, iq_prev := 0,
    delta_iq := 0 }

/-- `rec0` after the rate loop at 168 hours: 336 / 168 = 2 minutes per hour. -/
def rated0 : Item :=
  { id := "equipment_001", category := "Strength", total_minutes := 336,
    weekly_change := 0, mph := 2, mph_prev := 2, iq := 0, iq_prev := 0,
    delta_iq := 0 }

/-- `rec0` fully scored: a single record always scores 100 / 100 / 0. -/
def s1 : Item :=
  { id := "equipment_001", category := "Strength", total_minutes := 336,
    weekly_change := 0, mph := 2, mph_prev := 2, iq := 100, iq_prev := 100,
    delta_iq := 0 }

lemma rateOne_rec0 : rateOne 168 rec0 = rated0 := by
  unfold rateOne rec0 rated0
  norm_num

lemma computeRates_rec0 : computeRates 168 [rec0] = Except.ok [rated0] := by
  rw [computeRates_of_ne (show (168 : ℚ) ≠ 0 by norm_num)]
  simp [rateOne_rec0]

lemma catVals_rated0 : catVals [rated0] "Strength" = [2] := by
  simp [catVals, rated0]

lemma effBaseline_rated0 : effBaseline [rated0] "Strength" = (2, 1) := by
  unfold effBaseline
  rw [catVals_rated0]
  norm_num [gymBaseline, gymList, rated0, meanQ, sigmaOf, pstdevOr1]

lemma scoreOne_rated0 : scoreOne [rated0] rated0 = s1 := by
  unfold scoreOne
  rw [show rated0.category = "Strength" from rfl, effBaseline_rated0]
  simp [rated0, s1, show rated0.mph = 2 from rfl,
    show rated0.mph_prev = 2 from rfl, to_iq_self]

lemma scoreStep_rated0 : scoreStep [rated0] = [s1] := by
  simp [scoreStep, scoreOne_rated0]

lemma gymIq_s1 : gymIq [s1] = 100 := by
  show pyRound ((meanQ ([s1].map (fun s => (s.iq : ℚ))) : ℚ) : ℝ) = 100
  have hm : meanQ ([s1].map (fun s => (s.iq : ℚ))) = 100 := by
    simp [s1, meanQ]
  rw [hm, show ((100 : ℚ) : ℝ) = ((100 : ℤ) : ℝ) by norm_num, pyRound_intCast]

lemma band_hundred : band_for_score 100 = "Average" := by
  norm_num [band_for_score]

lemma scoreAll_rec0 : scoreAll 168 [rec0] = Except.ok ([s1], 100, "Average") := by
  unfold scoreAll
  rw [computeRates_rec0]
  show Except.ok (scoreStep [rated0], gymIq (scoreStep [rated0]),
    band_for_score (gymIq (scoreStep [rated0]))) = _
  rw [scoreStep_rated0, gymIq_s1, band_hundred]

lemma rateOne_mph (h : ℚ) (it : Item) :
    (rateOne h it).mph = (it.total_minutes : ℚ) / h := rfl

lemma rateOne_mph_prev (h : ℚ) (it : Item) :
    (rateOne h it).mph_prev =
      ((max 0 (it.total_minutes - it.weekly_change) : ℤ) : ℚ) / h := rfl

lemma rateOne_total_minutes (h : ℚ) (it : Item) :
    (rateOne h it).total_minutes = it.total_minutes := rfl

lemma rateOne_weekly_change (h : ℚ) (it : Item) :
    (rateOne h it).weekly_change = it.weekly_change := rfl

/-! ### The claims -/

/-- C1: for every input collection accepted by the engine, every output
record's `iq` and `iq_prev` lie in the closed integer range `[0, 200]`. -/
theorem iq_and_iq_prev_bounded :
    ∀ (h : ℚ) (items : List Item) (out : List Item × ℤ × String),
      scoreAll h items = Except.ok out → ∀ r ∈ out.1,
        (0 ≤ r.iq ∧ r.iq ≤ 200) ∧ (0 ≤ r.iq_prev ∧ r.iq_prev ≤ 200) := by
  intro h items out heq r hr
  obtain ⟨rated, -, -, hout⟩ := scoreAll_ok_elim heq
  have h1 : out.1 = scoreStep rated := by rw [hout]
  rw [h1] at hr
  obtain ⟨it, -, hit⟩ := mem_scoreStep hr
  subst hit
  rw [scoreOne_iq, scoreOne_iq_prev]
  exact ⟨⟨to_iq_nonneg _ _ _, to_iq_le_two_hundred _ _ _⟩,
    ⟨to_iq_nonneg _ _ _, to_iq_le_two_hundred _ _ _⟩⟩

/-- Witness for C1: the single-record run scores `iq = iq_prev = 100`,
inside `[0, 200]`. -/
theorem iq_and_iq_prev_bounded_witness :
    (0 ≤ s1.iq ∧ s1.iq ≤ 200) ∧ (0 ≤ s1.iq_prev ∧ s1.iq_prev ≤ 200) :=
  iq_and_iq_prev_bounded 168 [rec0] ([s1], 100, "Average") scoreAll_rec0 s1
    (by simp)

/-- C4: `delta_iq` is exactly `iq - iq_prev`, where `iq` and `iq_prev` are
each produced by `to_iq` (hence each independently rounded and clamped)
against the same effective baseline. -/
theorem delta_iq_consistency :
    ∀ (h : ℚ) (items : List Item) (out : List Item × ℤ × String),
      scoreAll h items = Except.ok out → ∀ r ∈ out.1,
        r.delta_iq = r.iq - r.iq_prev ∧
        r.iq = to_iq r.mph (effBaseline out.1 r.category).1
          (effBaseline out.1 r.category).2 ∧
        r.iq_prev = to_iq r.mph_prev (effBaseline out.1 r.category).1
          (effBaseline out.1 r.category).2 := by
  intro h items out heq r hr
  obtain ⟨rated, -, -, hout⟩ := scoreAll_ok_elim heq
  have h1 : out.1 = scoreStep rated := by rw [hout]
  rw [h1] at hr ⊢
  rw [effBaseline_scoreStep]
  obtain ⟨it, -, hit⟩ := mem_scoreStep hr
  subst hit
  rw [scoreOne_category, scoreOne_mph, scoreOne_mph_prev]
  exact ⟨scoreOne_delta_iq rated it, scoreOne_iq rated it,
    scoreOne_iq_prev rated it⟩

/-- Witness for C4: on the single-record run, `delta_iq = iq - iq_prev`. -/
theorem delta_iq_consistency_witness : s1.delta_iq = s1.iq - s1.iq_prev :=
  (delta_iq_consistency 168 [rec0] ([s1], 100, "Average") scoreAll_rec0 s1
    (by simp)).1

/-- C5 (failing part): on the empty collection the engine raises
`StatisticsError` from `mean(gym_mph_list)` before the `if items else 100`
facility default can apply, instead of returning score 100 / band
"Average" as specified. -/
theorem empty_collection_raises :
    compute_iq_fields [] =
      Except.error "StatisticsError: mean requires at least one data point" :=
  rfl

/-- C6: `band_for_score` is total on integers with inclusive "Average"
boundaries at 90 and 110. -/
theorem band_boundaries :
    ∀ s : ℤ, (s < 90 → band_for_score s = "Below Average") ∧
      (90 ≤ s → s ≤ 110 → band_for_score s = "Average") ∧
      (110 < s → band_for_score s = "Above Average") := by
  intro s
  unfold band_for_score
  refine ⟨fun h1 => ?_, fun h1 h2 => ?_, fun h1 => ?_⟩
  · rw [if_pos h1]
  · rw [if_neg (by omega), if_pos h2]
  · rw [if_neg (by omega), if_neg (by omega)]

/-- Witness for C6: the four boundary scores 89, 90, 110, 111. -/
theorem band_boundaries_witness :
    band_for_score 89 = "Below Average" ∧ band_for_score 90 = "Average" ∧
    band_for_score 110 = "Average" ∧ band_for_score 111 = "Above Average" :=
  ⟨(band_boundaries 89).1 (by norm_num),
   (band_boundaries 90).2.1 (by norm_num) (by norm_num),
   (band_boundaries 110).2.1 (by norm_num) (by norm_num),
   (band_boundaries 111).2.2 (by norm_num)⟩

/-- C7: for a nonzero period length, the rate loop accepts the collection
and augments every record (positionally) with
`mph = total_minutes / h` and
`mph_prev = max(0, total_minutes - weekly_change) / h`, leaving the
caller-supplied fields unchanged. -/
theorem computeRates_augments :
    ∀ (h : ℚ) (items out : List Item), h ≠ 0 →
      computeRates h items = Except.ok out →
      out.length = items.length ∧
      ∀ p ∈ items.zip out,
        p.2.mph = (p.1.total_minutes : ℚ) / h ∧
        p.2.mph_prev =
          ((max 0 (p.1.total_minutes - p.1.weekly_change) : ℤ) : ℚ) / h ∧
        p.2.id = p.1.id ∧ p.2.category = p.1.category ∧
        p.2.total_minutes = p.1.total_minutes ∧
        p.2.weekly_change = p.1.weekly_change := by
  intro h items out hne heq
  rw [computeRates_of_ne hne] at heq
  have hout : out = items.map (rateOne h) := (Except.ok.inj heq).symm
  subst hout
  clear heq
  refine ⟨by simp, ?_⟩
  induction items with
  | nil => exact fun p hp => absurd hp (by simp)
  | cons it rest ih =>
    intro p hp
    rw [List.map_cons, List.zip_cons_cons] at hp
    rcases List.mem_cons.mp hp with hp0 | hp1
    · subst hp0
      exact ⟨rfl, rfl, rfl, rfl, rfl, rfl⟩
    · exact ih p hp1

/-- Witness for C7: the concrete record `rec0` at 168 hours gets
`mph = 336 / 168` and `mph_prev = max(0, 336 - 0) / 168`. -/
theorem computeRates_augments_witness :
    rated0.mph = (rec0.total_minutes : ℚ) / 168 ∧
    rated0.mph_prev =
      ((max 0 (rec0.total_minutes - rec0.weekly_change) : ℤ) : ℚ) / 168 := by
  have h := (computeRates_augments 168 [rec0] [rated0] (by norm_num)
    computeRates_rec0).2 (rec0, rated0) (by simp)
  exact ⟨h.1, h.2.1⟩

/-- C9: the engine is deterministic — two invocations on equal period
lengths and equal collections return equal results. -/
theorem scoreAll_deterministic :
    ∀ (g h : ℚ) (items1 items2 : List Item),
      g = h → items1 = items2 → scoreAll g items1 = scoreAll h items2 := by
  intro g h items1 items2 hgh hitems
  rw [hgh, hitems]

/-- Witness for C9: two identical single-record invocations agree. -/
theorem scoreAll_deterministic_witness :
    scoreAll 168 [rec0] = scoreAll 168 [rec0] :=
  scoreAll_deterministic 168 168 [rec0] [rec0] rfl rfl

/-- C2: the effective deviation is always strictly positive, a zero
population deviation is replaced by the sentinel `1.0`, and a record whose
effective baseline is computed from all-identical rates (its own category
when that category has at least 5 samples, or the facility set when all
rates agree) scores exactly `iq = 100`. -/
theorem sentinel_and_uniform_scores :
    (∀ l : List ℚ, 0 < sigmaOf l ∧ (pvariance l = 0 → sigmaOf l = 1)) ∧
    (∀ (h : ℚ) (items : List Item) (out : List Item × ℤ × String),
      scoreAll h items = Except.ok out → ∀ r ∈ out.1,
        ((5 ≤ (catVals out.1 r.category).length ∧
            ∀ v ∈ catVals out.1 r.category, v = r.mph) ∨
          (∀ r2 ∈ out.1, r2.mph = r.mph)) →
        r.iq = 100) := by
  constructor
  · exact fun l => ⟨sigmaOf_pos l, sigmaOf_of_pvariance_zero⟩
  · intro h items out heq r hr hid
    obtain ⟨rated, -, -, hout⟩ := scoreAll_ok_elim heq
    have h1 : out.1 = scoreStep rated := by rw [hout]
    rw [h1] at hr hid
    obtain ⟨it, hitmem, hit⟩ := mem_scoreStep hr
    subst hit
    rw [catVals_scoreStep, scoreOne_category, scoreOne_mph] at hid
    rw [scoreOne_iq]
    unfold effBaseline
    by_cases hlen : 5 ≤ (catVals rated it.category).length
    · rw [if_pos hlen]
      have hconst : ∀ v ∈ catVals rated it.category, v = it.mph := by
        rcases hid with ⟨-, hc⟩ | hall
        · exact hc
        · intro v hv
          unfold catVals at hv
          obtain ⟨it2, hit2, hv2⟩ := List.mem_map.mp hv
          have hmem2 : it2 ∈ rated := List.mem_of_mem_filter hit2
          have := hall (scoreOne rated it2)
            (List.mem_map_of_mem _ hmem2)
          rw [scoreOne_mph] at this
          rw [← hv2]
          exact this
      have hmean : meanQ (catVals rated it.category) = it.mph :=
        meanQ_const hconst
          (List.ne_nil_of_mem (mph_mem_catVals hitmem))
      show to_iq it.mph (meanQ (catVals rated it.category))
        (sigmaOf (catVals rated it.category)) = 100
      rw [hmean]
      exact to_iq_self _ _
    · rw [if_neg hlen]
      rcases hid with ⟨hlen5, -⟩ | hall
      · exact absurd hlen5 hlen
      · have hconst : ∀ v ∈ gymList rated, v = it.mph := by
          intro v hv
          obtain ⟨it2, hmem2, hv2⟩ := List.mem_map.mp hv
          have := hall (scoreOne rated it2)
            (List.mem_map_of_mem _ hmem2)
          rw [scoreOne_mph] at this
          rw [← hv2]
          exact this
        have hmean : meanQ (gymList rated) = it.mph :=
          meanQ_const hconst
            (List.ne_nil_of_mem (mph_mem_gymList hitmem))
        show to_iq it.mph (meanQ (gymList rated))
          (sigmaOf (gymList rated)) = 100
        rw [hmean]
        exact to_iq_self _ _

/-- Witness for C2: the two-value uniform rate list `[2, 2]` has
deviation replaced by the sentinel 1, and the single-record run (whose
rates are trivially all identical) scores `iq = 100`. -/
theorem sentinel_and_uniform_scores_witness :
    sigmaOf [2, 2] = 1 ∧ s1.iq = 100 :=
  ⟨(sentinel_and_uniform_scores.1 [2, 2]).2 (by norm_num [pvariance, meanQ]),
   sentinel_and_uniform_scores.2 168 [rec0] ([s1], 100, "Average")
     scoreAll_rec0 s1 (by simp)
     (Or.inr (by
       intro r2 hr2
       rw [List.mem_singleton.mp hr2]))⟩

/-- C3: a record whose category has fewer than 5 samples is scored against
the facility-wide baseline (mean and deviation over all records' current
rates); a category's own baseline is used exactly when the category has at
least 5 samples. -/
theorem category_fallback :
    ∀ (h : ℚ) (items : List Item) (out : List Item × ℤ × String),
      scoreAll h items = Except.ok out → ∀ r ∈ out.1,
        ((catVals out.1 r.category).length < 5 →
          effBaseline out.1 r.category =
            (meanQ (gymList out.1), sigmaOf (gymList out.1)) ∧
          r.iq = to_iq r.mph (meanQ (gymList out.1))
            (sigmaOf (gymList out.1)) ∧
          r.iq_prev = to_iq r.mph_prev (meanQ (gymList out.1))
            (sigmaOf (gymList out.1))) ∧
        (5 ≤ (catVals out.1 r.category).length →
          effBaseline out.1 r.category =
            (meanQ (catVals out.1 r.category),
             sigmaOf (catVals out.1 r.category)) ∧
          r.iq = to_iq r.mph (meanQ (catVals out.1 r.category))
            (sigmaOf (catVals out.1 r.category))) := by
  intro h items out heq r hr
  obtain ⟨rated, -, -, hout⟩ := scoreAll_ok_elim heq
  have h1 : out.1 = scoreStep rated := by rw [hout]
  rw [h1] at hr ⊢
  rw [catVals_scoreStep, gymList_scoreStep, effBaseline_scoreStep]
  obtain ⟨it, -, hit⟩ := mem_scoreStep hr
  subst hit
  rw [scoreOne_category, scoreOne_mph, scoreOne_mph_prev]
  constructor
  · intro hlt
    have hbl : effBaseline rated it.category = gymBaseline rated := by
      unfold effBaseline
      rw [if_neg (by omega)]
    refine ⟨hbl, ?_, ?_⟩
    · rw [scoreOne_iq, hbl]
      rfl
    · rw [scoreOne_iq_prev, hbl]
      rfl
  · intro hge
    have hbl : effBaseline rated it.category =
        (meanQ (catVals rated it.category),
         sigmaOf (catVals rated it.category)) := by
      unfold effBaseline
      rw [if_pos hge]
    refine ⟨hbl, ?_⟩
    rw [scoreOne_iq, hbl]

/-- Witness for C3: in the single-record run the "Strength" category has
one sample (< 5), so the record is scored against the facility-wide
baseline. -/
theorem category_fallback_witness :
    s1.iq = to_iq s1.mph (meanQ (gymList [s1])) (sigmaOf (gymList [s1])) :=
  ((category_fallback 168 [rec0] ([s1], 100, "Average") scoreAll_rec0 s1
    (by simp)).1 (by norm_num [catVals, s1])).2.1

/-- `rec0` after the rate loop at the (invalid) period length −168:
the division simply proceeds and yields the negative rate −2. -/
def ratedN : Item :=
  { id := "equipment_001", category := "Strength", total_minutes := 336,
    weekly_change := 0, mph := -2, mph_prev := -2, iq := 0, iq_prev := 0,
    delta_iq := 0 }

/-- `rec0` fully scored at period length −168. -/
def sN : Item :=
  { id := "equipment_001", category := "Strength", total_minutes := 336,
    weekly_change := 0, mph := -2, mph_prev := -2, iq := 100, iq_prev := 100,
    delta_iq := 0 }

lemma computeRates_neg_rec0 : computeRates (-168) [rec0] = Except.ok [ratedN] := by
  rw [computeRates_of_ne (show (-168 : ℚ) ≠ 0 by norm_num)]
  have : rateOne (-168) rec0 = ratedN := by
    unfold rateOne rec0 ratedN
    norm_num
  simp [this]

lemma catVals_ratedN : catVals [ratedN] "Strength" = [-2] := by
  simp [catVals, ratedN]

lemma effBaseline_ratedN : effBaseline [ratedN] "Strength" = (-2, 1) := by
  unfold effBaseline
  rw [catVals_ratedN]
  norm_num [gymBaseline, gymList, ratedN, meanQ, sigmaOf, pstdevOr1]

lemma scoreOne_ratedN : scoreOne [ratedN] ratedN = sN := by
  unfold scoreOne
  rw [show ratedN.category = "Strength" from rfl, effBaseline_ratedN]
  simp [ratedN, sN, show ratedN.mph = -2 from rfl,
    show ratedN.mph_prev = -2 from rfl, to_iq_self]

lemma gymIq_sN : gymIq [sN] = 100 := by
  show pyRound ((meanQ ([sN].map (fun s => (s.iq : ℚ))) : ℚ) : ℝ) = 100
  have hm : meanQ ([sN].map (fun s => (s.iq : ℚ))) = 100 := by
    simp [sN, meanQ]
  rw [hm, show ((100 : ℚ) : ℝ) = ((100 : ℤ) : ℝ) by norm_num, pyRound_intCast]

/-- C8 counterexample: at the strictly negative period length −168 the
engine does not reject the call — it runs to completion and returns a
result (with the record's rates computed as −2 against the negative
divisor). -/
theorem negative_period_not_rejected :
    scoreAll (-168) [rec0] = Except.ok ([sN], 100, "Average") := by
  unfold scoreAll
  rw [computeRates_neg_rec0]
  show Except.ok (scoreStep [ratedN], gymIq (scoreStep [ratedN]),
    band_for_score (gymIq (scoreStep [ratedN]))) = _
  have hss : scoreStep [ratedN] = [sN] := by
    simp [scoreStep, scoreOne_ratedN]
  rw [hss, gymIq_sN, band_hundred]

/-- C8 as amended: the engine performs no validation of the period-length
constant — a call is rejected (with a division-by-zero error) exactly when
the constant is zero and the collection is nonempty; any nonzero constant,
in particular any negative one, is silently accepted as the divisor, and no
default is ever substituted for it. -/
theorem period_zero_only_raises :
    ∀ (h : ℚ) (items : List Item),
      (h = 0 → items ≠ [] → ∃ e, scoreAll h items = Except.error e) ∧
      (h ≠ 0 → items ≠ [] → ∃ out, scoreAll h items = Except.ok out) := by
  intro h items
  constructor
  · intro h0 hne
    subst h0
    cases items with
    | nil => exact absurd rfl hne
    | cons it rest =>
      refine ⟨"ZeroDivisionError: division by zero", ?_⟩
      unfold scoreAll
      rw [show computeRates 0 (it :: rest) =
        Except.error "ZeroDivisionError: division by zero" by
          simp [computeRates]]
  · intro hne hne2
    cases items with
    | nil => exact absurd rfl hne2
    | cons it rest =>
      refine ⟨?_, ?_⟩
      · exact (scoreStep (rateOne h it :: rest.map (rateOne h)),
          gymIq (scoreStep (rateOne h it :: rest.map (rateOne h))),
          band_for_score (gymIq (scoreStep (rateOne h it :: rest.map (rateOne h)))))
      · unfold scoreAll
        rw [computeRates_of_ne hne, List.map_cons]

/-- Witness for C8 (amended): a zero period on a nonempty collection
raises, and the period −1 is accepted. -/
theorem period_zero_only_raises_witness :
    (∃ e, scoreAll 0 [rec0] = Except.error e) ∧
    (∃ out, scoreAll (-1) [rec0] = Except.ok out) :=
  ⟨(period_zero_only_raises 0 [rec0]).1 rfl (by simp),
   (period_zero_only_raises (-1) [rec0]).2 (by norm_num) (by simp)⟩

/-- C10: for any baseline with strictly positive deviation `to_iq` is
monotone non-decreasing in the rate; every effective baseline has strictly
positive deviation; hence every accepted record with non-negative measured
minutes and non-negative period change (scored with a positive period
length) satisfies `iq_prev ≤ iq` and `delta_iq ≥ 0`. -/
theorem monotone_and_delta_nonneg :
    (∀ (σ : ℝ) (mu m1 m2 : ℚ), 0 < σ → m1 ≤ m2 →
      to_iq m1 mu σ ≤ to_iq m2 mu σ) ∧
    (∀ (rated : List Item) (c : String), 0 < (effBaseline rated c).2) ∧
    (∀ (h : ℚ) (items : List Item) (out : List Item × ℤ × String),
      0 < h → scoreAll h items = Except.ok out → ∀ r ∈ out.1,
        0 ≤ r.total_minutes → 0 ≤ r.weekly_change →
        r.iq_prev ≤ r.iq ∧ 0 ≤ r.delta_iq) := by
  refine ⟨fun σ mu m1 m2 hσ h12 => to_iq_mono hσ h12,
    effBaseline_sigma_pos, ?_⟩
  intro h items out hpos heq r hr htm hwc
  obtain ⟨rated, hcr, -, hout⟩ := scoreAll_ok_elim heq
  have h1 : out.1 = scoreStep rated := by rw [hout]
  rw [h1] at hr
  obtain ⟨it, hitmem, hit⟩ := mem_scoreStep hr
  subst hit
  rw [scoreOne_total_minutes] at htm
  rw [scoreOne_weekly_change] at hwc
  rw [computeRates_of_ne (ne_of_gt hpos)] at hcr
  have hrated : rated = items.map (rateOne h) := (Except.ok.inj hcr).symm
  subst hrated
  obtain ⟨it0, -, hform⟩ := List.mem_map.mp hitmem
  subst hform
  rw [rateOne_total_minutes] at htm
  rw [rateOne_weekly_change] at hwc
  have hmle : (rateOne h it0).mph_prev ≤ (rateOne h it0).mph := by
    rw [rateOne_mph, rateOne_mph_prev]
    apply (div_le_div_iff_of_pos_right hpos).mpr
    have hint : max 0 (it0.total_minutes - it0.weekly_change) ≤
        it0.total_minutes := by omega
    exact_mod_cast hint
  have hσ := effBaseline_sigma_pos (items.map (rateOne h))
    (rateOne h it0).category
  have hle := @to_iq_mono _ hσ
    (effBaseline (items.map (rateOne h)) (rateOne h it0).category).1 _ _ hmle
  constructor
  · rw [scoreOne_iq, scoreOne_iq_prev]
    exact hle
  · rw [scoreOne_delta_iq, scoreOne_iq, scoreOne_iq_prev]
    exact sub_nonneg.mpr hle

/-- Witness for C10: `to_iq` monotone at a concrete baseline, a concrete
effective deviation is positive, and the single-record run (336 minutes,
change 0) has `iq_prev ≤ iq` and `delta_iq ≥ 0`. -/
theorem monotone_and_delta_nonneg_witness :
    to_iq 0 0 1 ≤ to_iq 1 0 1 ∧
    0 < (effBaseline [rated0] "Strength").2 ∧
    (s1.iq_prev ≤ s1.iq ∧ 0 ≤ s1.delta_iq) :=
  ⟨monotone_and_delta_nonneg.1 1 0 0 1 one_pos (by norm_num),
   monotone_and_delta_nonneg.2.1 [rated0] "Strength",
   monotone_and_delta_nonneg.2.2 168 [rec0] ([s1], 100, "Average")
     (by norm_num) scoreAll_rec0 s1 (by simp) (by decide) (by decide)⟩

end FloorIQ
